import Mathlib

/-!
Shallow embedding of `scripts/classification/imagenet/common/dali_utils.py`.

The file under verification is configuration plumbing around an external
image pipeline: it merges command-line argument specifications, derives
shard assignments for distributed workers, computes per-worker dataset
sizes, and provides a synthetic fallback iterator.  Each definition below
embeds one of those computations; external tensors and pipeline objects
are abstracted by type parameters or by explicitly passed values (such as
the epoch size reported by a built pipeline).
-/

/-- A small universe of Python values, enough to model the argument objects
handled by `get_attribute` (booleans from `hasattr`, comma-separated strings,
and lists of floats modelled as rationals). -/
inductive PyVal where
  | none
  | bool (b : Bool)
  | int (n : Int)
  | str (s : String)
  | floats (l : List Rat)
deriving DecidableEq

/-- Parse one nonnegative decimal literal, as Python `float` would on the
strings appearing in comma-separated pixel statistics. -/
def parseFloat (s : String) : Rat :=
  match s.splitOn "." with
  | [a] => ((a.toNat?.getD 0 : Nat) : Rat)
  | [a, b] => ((a.toNat?.getD 0 : Nat) : Rat) + ((b.toNat?.getD 0 : Nat) : Rat) / ((10 : Rat) ^ b.length)
  | _ => 0

/-- Model of `list(map(float, attr.split(',')))`. -/
def parseFloats (s : String) : List Rat :=
  (s.splitOn ",").map parseFloat

/-- Module constant `_mean_pixel = [255 * x for x in (0.485, 0.456, 0.406)]`. -/
def mean_pixel : List Rat :=
  [255 * (485 / 1000 : Rat), 255 * (456 / 1000 : Rat), 255 * (406 / 1000 : Rat)]

/-- Module constant `_std_pixel = [255 * x for x in (0.229, 0.224, 0.225)]`. -/
def std_pixel : List Rat :=
  [255 * (229 / 1000 : Rat), 255 * (224 / 1000 : Rat), 255 * (225 / 1000 : Rat)]

/-- Model of Python `hasattr`: the argument object is a partial map from
attribute names to values, and an attribute exists when the map is defined. -/
def hasattrB (args : String → Option PyVal) (attr_name : String) : Bool :=
  (args attr_name).isSome

/-- Embedding of `get_attribute(args, attr_name, def_value)` exactly as the
source writes it: inside the `hasattr` guard it assigns
`attr = hasattr(args, attr_name)` (the existence boolean, not the value)
and then tests `isinstance(attr, str)` on that boolean. -/
def get_attribute (args : String → Option PyVal) (attr_name : String) (def_value : PyVal) : PyVal :=
  if hasattrB args attr_name then
    let attr := PyVal.bool (hasattrB args attr_name)
    match attr with
    | PyVal.str s => PyVal.floats (parseFloats s)
    | other => other
  else def_value

/-- The `mean` argument that `ImageMethods.__init__` passes to
`ops.CropMirrorNormalize`: `get_attribute(args, 'rgb_mean', _mean_pixel)`.
A Python `args=None` is modelled by the everywhere-undefined map. -/
def imageMethods_cmnp_mean (args : String → Option PyVal) : PyVal :=
  get_attribute args "rgb_mean" (PyVal.floats mean_pixel)

/-- The `std` argument that `ImageMethods.__init__` passes to
`ops.CropMirrorNormalize`: `get_attribute(args, 'rgb_std', _std_pixel)`. -/
def imageMethods_cmnp_std (args : String → Option PyVal) : PyVal :=
  get_attribute args "rgb_std" (PyVal.floats std_pixel)

/-- One command-line option specification, reduced to the parts relevant to
the duplicate-removal logic of `add_dali_pipeline_args`: its option string
and its help text (which distinguishes distinct specifications). -/
structure ArgSpec where
  name : String
  help : String
deriving DecidableEq

/-- Module constant `synonyms_list = [('--separ-val', ('--dali-separ-val'))]`.
Note the second component is a plain string (the source's parentheses do not
make a tuple). -/
def synonyms_list : List (String × String) :=
  [("--separ-val", "--dali-separ-val")]

/-- Helper for the substring test: `leadBlock p s` holds when `p` is a
contiguous leading block of `s`. -/
def leadBlock : List Char → List Char → Bool
  | [], _ => true
  | _ :: _, [] => false
  | a :: as, b :: bs => a == b && leadBlock as bs

/-- Model of Python's `nameB in synonims[1]` on strings: `hasBlock p s` holds
when `p` occurs contiguously inside `s`. -/
def hasBlock (p : List Char) : List Char → Bool
  | [] => leadBlock p []
  | c :: cs => leadBlock p (c :: cs) || hasBlock p cs

/-- Embedding of the nested `are_synonyms(nameA, nameB)` of
`add_dali_pipeline_args`: equal names are synonyms, and otherwise the first
synonym-table entry whose key is `nameA` is consulted with Python's `in`
(substring containment, because the table entry is a string). -/
def are_synonyms (nameA nameB : String) : Bool :=
  if nameA = nameB then true
  else
    match synonyms_list.find? (fun syn => syn.1 == nameA) with
    | some syn => hasBlock nameB.toList syn.2.toList
    | none => false

/-- The first default specification, `--separ-val`, which is also the only
synonym-table key. -/
def separDefault : ArgSpec :=
  { name := "--separ-val", help := "each process will perform independent validation on whole val-set" }

/-- The local `default_args` list of `add_dali_pipeline_args` (option strings
and help texts; types and default values are irrelevant to the merge). -/
def default_args : List ArgSpec :=
  [ separDefault
  , { name := "--dali-threads", help := "number of threads per GPU for DALI" }
  , { name := "--dali-prefetch-queue", help := "DALI prefetch queue depth" }
  , { name := "--dali-nvjpeg-memory-padding", help := "Memory padding value for nvJPEG in MB" }
  , { name := "--num_examples", help := "Number of training examples to be used" }
  , { name := "--reader_name", help := "Reader name" } ]

/-- One pass of the inner loop of the duplicate check: scan the default list
and remove the first specification whose name is a synonym of the caller
name (the source's `default_args.remove(def_arg)` followed by `break`). -/
def removeFirstMatch (callerName : String) : List ArgSpec → List ArgSpec
  | [] => []
  | d :: ds =>
    if are_synonyms d.name callerName then ds
    else d :: removeFirstMatch callerName ds

/-- One iteration of the outer loop `for arg in task_args`. -/
def merge_step (ds : List ArgSpec) (arg : ArgSpec) : List ArgSpec :=
  removeFirstMatch arg.name ds

/-- The default specifications surviving the duplicate check against a given
caller-supplied `task_args` list. -/
def merged_default_args (task_args : List ArgSpec) : List ArgSpec :=
  task_args.foldl merge_step default_args

/-- The merged argument list registered by `add_dali_pipeline_args`: all
caller specifications first (`for args in [task_args, default_args]`),
then the surviving defaults. -/
def add_dali_pipeline_args (task_args : List ArgSpec) : List ArgSpec :=
  task_args ++ merged_default_args task_args

/-- The argparse destination derived from an option string: leading dashes
are stripped and interior dashes become underscores. -/
def destOf (name : String) : String :=
  String.mk ((name.toList.dropWhile (fun c => c == '-')).map (fun c => if c == '-' then '_' else c))

/-- Embedding of `SyntheticDataIter`.  The per-device tensors created in
`__init__` are abstract values of types `dt` and `lt`; the iterator keeps
one copy per GPU and a cumulative sample counter. -/
structure SyntheticDataIter (dt lt : Type) where
  batch_size : Nat
  num_gpus : Nat
  epoch_size : Nat
  cur_sample : Nat
  data : List dt
  label : List lt
deriving DecidableEq

/-- Embedding of `SyntheticDataIter.next`: while `cur_sample <= epoch_size`
the counter advances by `batch_size * num_gpus` and one `DataBatch` per
device is returned (the stored tensors, zipped); otherwise `StopIteration`
is raised, modelled as `none`. -/
def SyntheticDataIter.next {dt lt : Type} (it : SyntheticDataIter dt lt) :
    Option (List (dt × lt) × SyntheticDataIter dt lt) :=
  if it.cur_sample ≤ it.epoch_size then
    some (it.data.zip it.label,
      { it with cur_sample := it.cur_sample + it.batch_size * it.num_gpus })
  else none

/-- Embedding of `SyntheticDataIter.reset`. -/
def SyntheticDataIter.reset {dt lt : Type} (it : SyntheticDataIter dt lt) :
    SyntheticDataIter dt lt :=
  { it with cur_sample := 0 }

/-- The state after `n` consecutive calls to `next`, or `none` when some call
among the `n` raised `StopIteration`. -/
def SyntheticDataIter.nextN {dt lt : Type} (it : SyntheticDataIter dt lt) :
    Nat → Option (SyntheticDataIter dt lt)
  | 0 => some it
  | n + 1 =>
    match it.next with
    | some p => SyntheticDataIter.nextN p.2 n
    | none => none

/-- The synthetic branch of `get_rec_pipeline_iter` (taken when
`args.synthetic == 1`): it builds one `SyntheticDataIter` over the GPUs with
`epoch_size = args.num_examples` and `batch_size = data_shape[0]`, and
returns it paired with `None` for the validation iterator.  The random
tensors drawn in `__init__` are the abstract `data` and `label` values,
copied once per GPU. -/
def get_rec_pipeline_iter_synthetic {dt lt : Type} (batch_size num_examples : Nat)
    (gpus : List Nat) (data : dt) (label : lt) :
    SyntheticDataIter dt lt × Option Unit :=
  ({ batch_size := batch_size
   , num_gpus := gpus.length
   , epoch_size := num_examples
   , cur_sample := 0
   , data := gpus.map (fun _ => data)
   , label := gpus.map (fun _ => label) }, none)

/-- The `shard_id` passed to `HybridTrainPipe` for GPU `gpu_id`:
`gpus.index(gpu_id) + len(gpus)*rank`. -/
def train_shard_id (gpus : List Nat) (rank : Nat) (gpu_id : Nat) : Nat :=
  gpus.indexOf gpu_id + gpus.length * rank

/-- The `num_shards` computed by `get_rec_pipeline_iter`: `len(gpus)*nWrk`. -/
def num_shards (gpus : List Nat) (nWrk : Nat) : Nat :=
  gpus.length * nWrk

/-- The `(shard_id, num_shards)` pair passed to `HybridValPipe`:
`(0, 1)` under the separate-validation flag, the training sharding
otherwise. -/
def val_shard_params (separ_flag : Bool) (gpus : List Nat) (nWrk rank gpu_id : Nat) : Nat × Nat :=
  ((if separ_flag then 0 else gpus.indexOf gpu_id + gpus.length * rank),
   (if separ_flag then 1 else num_shards gpus nWrk))

/-- The slice of the parsed-argument object consulted by the
separate-validation test: the two attributes are optional (absent when the
option was never declared) and carry a boolean when present. -/
structure Args where
  dali_separ_val : Option Bool
  separ_val : Option Bool
deriving DecidableEq

/-- Embedding of line `separ_val_flag = hasattr(args, "dali_separ_val") or
hasattr(args, "separ_val")`: only presence is tested, never the value. -/
def separ_val_flag (args : Args) : Bool :=
  args.dali_separ_val.isSome || args.separ_val.isSome

/-- Embedding of the size bookkeeping at the end of `get_rec_pipeline_iter`:
the warning condition `args.num_examples < trainpipes[0].epoch_size(...)`
and the `train_size` / `val_size` computation guarded by `reader is None`,
`val_flg` and `separ_val_flag`.  Python's floor division on integers is
`Int.fdiv`.  The result is `(warn, train_size, val_size)`. -/
def compute_sizes (num_examples train_epoch val_epoch nWrk rank : Int)
    (reade_flg val_flg sep_flag : Bool) : Bool × Int × Int :=
  let warn : Bool := decide (num_examples < train_epoch)
  let train_size : Int := -1
  let val_size : Int := -1
  if reade_flg then
    (warn, train_size, val_size)
  else
    let train_size := Int.fdiv num_examples nWrk
    if val_flg then
      let val_size := val_epoch
      if sep_flag then
        (warn, train_size, val_size)
      else
        let val_size := Int.fdiv val_size nWrk
        let val_size := if rank < val_epoch then val_size + 1 else val_size
        (warn, train_size, val_size)
    else
      (warn, train_size, val_size)

/-- A synthetic iterator whose epoch size is an exact multiple of the step
`batch_size * num_gpus`: `SyntheticDataIter(_, (10, ...), 10, _, [0], _)`. -/
def itDiv : SyntheticDataIter Unit Unit :=
  { batch_size := 10, num_gpus := 1, epoch_size := 10, cur_sample := 0
  , data := [()], label := [()] }

/-- A small concrete synthetic iterator: batch 2, one GPU, epoch size 5. -/
def itSynth : SyntheticDataIter Nat Nat :=
  { batch_size := 2, num_gpus := 1, epoch_size := 5, cur_sample := 0
  , data := [7], label := [9] }

/-- A second concrete synthetic iterator, batch 2, one GPU, epoch size 5. -/
def itW : SyntheticDataIter Nat Nat :=
  { batch_size := 2, num_gpus := 1, epoch_size := 5, cur_sample := 0
  , data := [4], label := [3] }

/-- The concrete synthetic-mode run of the specification scenario:
`num_examples=100`, `batch_size=10`, one GPU. -/
def synthRun : SyntheticDataIter Unit Unit × Option Unit :=
  get_rec_pipeline_iter_synthetic 10 100 [0] () ()

/-- A caller argument list holding one option whose argparse destination
collides with the default `--separ-val` while its option string differs. -/
def taskUnderscore : List ArgSpec :=
  [{ name := "--separ_val", help := "caller flag" }]

/-- A caller argument list holding the declared synonym of `--separ-val`. -/
def taskSynonym : List ArgSpec :=
  [{ name := "--dali-separ-val", help := "caller validation flag" }]

/-- An argument object carrying `rgb_mean` as the comma-separated string a
user would pass on the command line. -/
def argsRGB : String → Option PyVal :=
  fun name => if name = "rgb_mean" then some (PyVal.str "123,117,104") else none

/-- A parsed-argument object where `--separ-val` was declared with
`action='store_true'` and not passed, so the attribute exists with value
`False`. -/
def argsSeparFalse : Args :=
  { dali_separ_val := none, separ_val := some false }

/-- A parsed-argument object where the separate-validation flag was set. -/
def argsSeparTrue : Args :=
  { dali_separ_val := some true, separ_val := none }

/-- Claim C2 (code bug): with a validation set of `V = 5` examples and
`nWrk = 2` workers in non-separate mode with empty reader name, the code
gives every rank `V // nWrk + 1` examples, because the remainder guard
compares the rank against the whole epoch size; the per-worker sizes sum
to 6, not to `V = 5`. -/
theorem val_size_sum_mismatch :
    (compute_sizes 5 5 5 2 0 false true false).2.2 +
      (compute_sizes 5 5 5 2 1 false true false).2.2 = 6 ∧
    decide ((6 : Int) = 5) = false := by
  decide

/-- Claim C4 (code bug): when the `rgb_mean` attribute is present as the
comma-separated string a user would pass, the value handed to
`CropMirrorNormalize` is the existence boolean `True`, not the parsed float
list, because `get_attribute` assigns `hasattr(...)` instead of the
attribute value; the ImageNet defaults are used only when the attributes
are absent. -/
theorem rgb_stats_hasattr_bug :
    imageMethods_cmnp_mean argsRGB = PyVal.bool true ∧
    decide (imageMethods_cmnp_mean argsRGB
      = PyVal.floats (parseFloats "123,117,104")) = false ∧
    imageMethods_cmnp_mean (fun _ => none) = PyVal.floats mean_pixel ∧
    imageMethods_cmnp_std (fun _ => none) = PyVal.floats std_pixel := by
  refine ⟨rfl, by decide, rfl, rfl⟩

/-- Claim C6 counterexample: requesting 5 examples from a dataset of epoch
size 10 does not exceed the dataset, yet the code emits the warning. -/
theorem warn_fires_on_undershoot :
    (compute_sizes 5 10 0 1 0 false false false).1 = true ∧
    decide ((5 : Int) > 10) = false := by
  decide

/-- Claim C6 (amended): `get_rec_pipeline_iter` emits its non-fatal warning
exactly when `args.num_examples` is strictly less than the dataset's
reported epoch size (the requested count undershoots the full training
set); construction proceeds in either case. -/
theorem warn_iff_undershoot (num_examples train_epoch val_epoch nWrk rank : Int)
    (reade_flg val_flg sep_flag : Bool) :
    (compute_sizes num_examples train_epoch val_epoch nWrk rank reade_flg val_flg sep_flag).1
      = decide (num_examples < train_epoch) := by
  unfold compute_sizes
  split_ifs <;> rfl

/-- Claim C7: whenever the separate-validation flag is active, every
validation pipeline is constructed with `shard_id = 0` and
`num_shards = 1`, for every worker rank, worker count and GPU. -/
theorem separ_val_whole_valset (args : Args) (gpus : List Nat) (nWrk rank gpu_id : Nat)
    (h : separ_val_flag args = true) :
    val_shard_params (separ_val_flag args) gpus nWrk rank gpu_id = (0, 1) := by
  rw [h]; rfl

/-- Witness for C7 at a concrete argument object and GPU layout. -/
theorem separ_val_whole_valset_witness :
    separ_val_flag argsSeparTrue = true ∧
    val_shard_params (separ_val_flag argsSeparTrue) [0, 1] 2 1 1 = (0, 1) :=
  ⟨rfl, separ_val_whole_valset argsSeparTrue [0, 1] 2 1 1 rfl⟩

/-- Claim C8: the separate-validation mode is activated by mere presence of
the `separ_val` attribute, even with value `False` (the argparse
`store_true` default): every validation pipeline gets `shard_id = 0`,
`num_shards = 1`, and the per-worker division of the validation size is
skipped (each worker keeps the full epoch size). -/
theorem separ_val_presence_activates (args : Args) (h : args.separ_val = some false) :
    separ_val_flag args = true ∧
    (∀ gpus nWrk rank gpu_id,
      val_shard_params (separ_val_flag args) gpus nWrk rank gpu_id = (0, 1)) ∧
    (∀ num_examples train_epoch val_epoch nWrk rank,
      (compute_sizes num_examples train_epoch val_epoch nWrk rank false true
        (separ_val_flag args)).2.2 = val_epoch) := by
  have hflag : separ_val_flag args = true := by
    unfold separ_val_flag
    rw [h]
    simp
  refine ⟨hflag, ?_, ?_⟩
  · intro gpus nWrk rank gpu_id
    rw [hflag]; rfl
  · intro ne te ve nW rk
    rw [hflag]; rfl

/-- Witness for C8 at the store-true default argument object. -/
theorem separ_val_presence_activates_witness :
    argsSeparFalse.separ_val = some false ∧
    separ_val_flag argsSeparFalse = true ∧
    val_shard_params (separ_val_flag argsSeparFalse) [0, 1] 2 0 1 = (0, 1) ∧
    (compute_sizes 100 100 50 2 0 false true (separ_val_flag argsSeparFalse)).2.2 = 50 :=
  ⟨rfl, (separ_val_presence_activates argsSeparFalse rfl).1,
   (separ_val_presence_activates argsSeparFalse rfl).2.1 [0, 1] 2 0 1,
   (separ_val_presence_activates argsSeparFalse rfl).2.2 100 100 50 2 0⟩

/-- Claim C10 counterexample: in the scenario `num_examples=100`,
`batch_size=10`, one GPU, the 11th call to `next` still returns a batch,
so the training iterator does not yield exactly 10 batches before
signaling end. -/
theorem synthetic_run_eleventh_batch :
    (synthRun.1.nextN 11).isSome = true := by
  decide

/-- Claim C10 (amended): in that scenario the returned validation iterator
is `None` and the training iterator yields exactly 11 non-exhausting
batches before signaling end of sequence. -/
theorem synthetic_run_counts :
    synthRun.2 = none ∧
    (synthRun.1.nextN 11).isSome = true ∧
    synthRun.1.nextN 12 = none := by
  refine ⟨rfl, by decide, by decide⟩

/-- Claim C3 counterexample: with epoch size 10, batch 10 and one GPU the
claimed call count is ceil(10/10) + 1 = 2, but the second call to `next`
still returns a batch instead of signaling exhaustion. -/
theorem synthetic_second_call_returns :
    (10 + 10 - 1) / 10 + 1 = 2 ∧ (itDiv.nextN 2).isSome = true := by
  decide

/-- Auxiliary: `indexOf` inverts `get` on duplicate-free GPU lists. -/
theorem indexOf_get_eq (l : List Nat) (hnd : l.Nodup) (i : Nat) (hi : i < l.length) :
    l.indexOf (l.get ⟨i, hi⟩) = i :=
  List.get_indexOf hnd ⟨i, hi⟩

/-- Claim C1: for `r < nWrk` and `g < len(gpus)` (GPU lists are
duplicate-free), the training pipeline for `(r, g)` gets
`shard_id = g + r * len(gpus)` and `num_shards = nWrk * len(gpus)`, and
the mapping is injective and onto the interval below `nWrk * len(gpus)`. -/
theorem shard_layout_bijective (gpus : List Nat) (nWrk r g : Nat)
    (hnd : gpus.Nodup) (hr : r < nWrk) (hg : g < gpus.length) :
    train_shard_id gpus r (gpus.get ⟨g, hg⟩) = g + r * gpus.length ∧
    num_shards gpus nWrk = nWrk * gpus.length ∧
    g + r * gpus.length < nWrk * gpus.length ∧
    (∀ r2 g2 (_hr2 : r2 < nWrk) (hg2 : g2 < gpus.length),
      train_shard_id gpus r2 (gpus.get ⟨g2, hg2⟩) = train_shard_id gpus r (gpus.get ⟨g, hg⟩) →
      r2 = r ∧ g2 = g) ∧
    (∀ s, s < nWrk * gpus.length →
      ∃ r2 g2, ∃ hg2 : g2 < gpus.length, r2 < nWrk ∧
        train_shard_id gpus r2 (gpus.get ⟨g2, hg2⟩) = s) := by
  have hG : 0 < gpus.length := Nat.lt_of_le_of_lt (Nat.zero_le g) hg
  have hkey : ∀ (r0 i : Nat) (hi : i < gpus.length),
      train_shard_id gpus r0 (gpus.get ⟨i, hi⟩) = i + r0 * gpus.length := by
    intro r0 i hi
    unfold train_shard_id
    rw [indexOf_get_eq gpus hnd i hi, Nat.mul_comm]
  have hmod : ∀ (r0 i : Nat), i < gpus.length →
      (i + r0 * gpus.length) % gpus.length = i := by
    intro r0 i hi
    rw [Nat.add_mul_mod_self_right, Nat.mod_eq_of_lt hi]
  have hdiv : ∀ (r0 i : Nat), i < gpus.length →
      (i + r0 * gpus.length) / gpus.length = r0 := by
    intro r0 i hi
    rw [Nat.add_mul_div_right _ _ hG, Nat.div_eq_of_lt hi, Nat.zero_add]
  have hbound : ∀ (r0 i : Nat), r0 < nWrk → i < gpus.length →
      i + r0 * gpus.length < nWrk * gpus.length := by
    intro r0 i hr0 hi
    calc i + r0 * gpus.length < gpus.length + r0 * gpus.length := by omega
      _ = (r0 + 1) * gpus.length := by ring
      _ ≤ nWrk * gpus.length := Nat.mul_le_mul (Nat.succ_le_of_lt hr0) (Nat.le_refl _)
  refine ⟨hkey r g hg, Nat.mul_comm _ _, hbound r g hr hg, ?_, ?_⟩
  · intro r2 g2 hr2 hg2 heq
    rw [hkey r2 g2 hg2, hkey r g hg] at heq
    have h1 : (g2 + r2 * gpus.length) % gpus.length = (g + r * gpus.length) % gpus.length := by
      rw [heq]
    have h2 : (g2 + r2 * gpus.length) / gpus.length = (g + r * gpus.length) / gpus.length := by
      rw [heq]
    rw [hmod r2 g2 hg2, hmod r g hg] at h1
    rw [hdiv r2 g2 hg2, hdiv r g hg] at h2
    exact ⟨h2, h1⟩
  · intro s hs
    have hgm : s % gpus.length < gpus.length := Nat.mod_lt s hG
    refine ⟨s / gpus.length, s % gpus.length, hgm, ?_, ?_⟩
    · exact (Nat.div_lt_iff_lt_mul hG).mpr hs
    · rw [hkey (s / gpus.length) (s % gpus.length) hgm, Nat.mul_comm, Nat.mod_add_div]

/-- Witness for C1 at `gpus = [0,1,2]`, `nWrk = 2`, `r = 1`, `g = 2`. -/
theorem shard_layout_bijective_witness :
    ([0, 1, 2] : List Nat).Nodup ∧ 1 < 2 ∧ 2 < ([0, 1, 2] : List Nat).length ∧
    train_shard_id [0, 1, 2] 1 2 = 2 + 1 * 3 :=
  ⟨by decide, by decide, by decide,
   (shard_layout_bijective [0, 1, 2] 2 1 2 (by decide) (by decide) (by decide)).1⟩

/-- A successful `next` step, in explicit form. -/
theorem SyntheticDataIter.next_some {dt lt : Type} (it : SyntheticDataIter dt lt)
    (h : it.cur_sample ≤ it.epoch_size) :
    it.next = some (it.data.zip it.label,
      { it with cur_sample := it.cur_sample + it.batch_size * it.num_gpus }) := by
  unfold SyntheticDataIter.next
  rw [if_pos h]

/-- A failing `next` step raises `StopIteration`. -/
theorem SyntheticDataIter.next_none {dt lt : Type} (it : SyntheticDataIter dt lt)
    (h : it.epoch_size < it.cur_sample) :
    it.next = none := by
  unfold SyntheticDataIter.next
  rw [if_neg (Nat.not_le.mpr h)]

/-- While the budget allows it, `n` calls to `next` all succeed and advance
the counter by `n * batch_size * num_gpus`. -/
theorem SyntheticDataIter.nextN_run {dt lt : Type} (n : Nat) :
    ∀ (it : SyntheticDataIter dt lt),
    (∀ k, k < n → it.cur_sample + k * (it.batch_size * it.num_gpus) ≤ it.epoch_size) →
    it.nextN n = some { it with cur_sample := it.cur_sample + n * (it.batch_size * it.num_gpus) } := by
  induction n with
  | zero =>
    intro it _
    have h0 : it.cur_sample + 0 * (it.batch_size * it.num_gpus) = it.cur_sample := by ring
    rw [h0]
    rfl
  | succ m ih =>
    intro it h
    have h0 : it.cur_sample ≤ it.epoch_size := by
      have := h 0 (Nat.succ_pos m)
      simpa using this
    have hstep := SyntheticDataIter.next_some it h0
    have hsh : ∀ k, k < m →
        it.cur_sample + it.batch_size * it.num_gpus + k * (it.batch_size * it.num_gpus)
          ≤ it.epoch_size := by
      intro k hk
      have hk1 := h (k + 1) (Nat.succ_lt_succ hk)
      rw [Nat.succ_mul] at hk1
      linarith
    have harith : it.cur_sample + (m + 1) * (it.batch_size * it.num_gpus)
        = it.cur_sample + it.batch_size * it.num_gpus + m * (it.batch_size * it.num_gpus) := by
      ring
    rw [harith]
    show (match it.next with
      | some p => SyntheticDataIter.nextN p.2 m
      | none => none) = _
    rw [hstep]
    exact ih _ hsh

/-- Splitting off the last of `n + 1` calls to `next`. -/
theorem SyntheticDataIter.nextN_snoc {dt lt : Type} (n : Nat) :
    ∀ (it : SyntheticDataIter dt lt),
    it.nextN (n + 1) = (it.nextN n).bind (fun it2 => Option.map Prod.snd it2.next) := by
  induction n with
  | zero =>
    intro it
    have step : SyntheticDataIter.nextN it 1
        = match it.next with
          | some p => SyntheticDataIter.nextN p.2 0
          | none => none := rfl
    rw [step]
    cases hnx : it.next with
    | none => simp [SyntheticDataIter.nextN, hnx]
    | some p => simp [SyntheticDataIter.nextN, hnx]
  | succ m ih =>
    intro it
    have step : SyntheticDataIter.nextN it (m + 2)
        = match it.next with
          | some p => SyntheticDataIter.nextN p.2 (m + 1)
          | none => none := rfl
    have step2 : SyntheticDataIter.nextN it (m + 1)
        = match it.next with
          | some p => SyntheticDataIter.nextN p.2 m
          | none => none := rfl
    rw [step, step2]
    cases hnx : it.next with
    | none => simp
    | some p => simpa using ih p.2

/-- Claim C3 (amended): starting from the initial (or reset) state with a
positive step `batch_size * num_gpus`, the first
`epoch_size / (batch_size * num_gpus) + 1` calls to `next` all return a
batch, and the call after them (number
`epoch_size / (batch_size * num_gpus) + 2`, counting from one) signals
exhaustion.  The source's `<=` comparison yields floor-division plus two,
which agrees with ceil-division plus one exactly when the step does not
divide the epoch size. -/
theorem synthetic_exhaustion_count {dt lt : Type} (it : SyntheticDataIter dt lt)
    (h0 : it.cur_sample = 0) (hs : 0 < it.batch_size * it.num_gpus) :
    (it.nextN (it.epoch_size / (it.batch_size * it.num_gpus) + 1)).isSome = true ∧
    it.nextN (it.epoch_size / (it.batch_size * it.num_gpus) + 2) = none := by
  have hall : ∀ k, k < it.epoch_size / (it.batch_size * it.num_gpus) + 1 →
      it.cur_sample + k * (it.batch_size * it.num_gpus) ≤ it.epoch_size := by
    intro k hk
    have hk' : k ≤ it.epoch_size / (it.batch_size * it.num_gpus) := Nat.lt_succ_iff.mp hk
    have h1 : k * (it.batch_size * it.num_gpus)
        ≤ it.epoch_size / (it.batch_size * it.num_gpus) * (it.batch_size * it.num_gpus) :=
      Nat.mul_le_mul_right _ hk'
    have h2 := Nat.div_mul_le_self it.epoch_size (it.batch_size * it.num_gpus)
    rw [h0, Nat.zero_add]
    exact Nat.le_trans h1 h2
  have hrun := SyntheticDataIter.nextN_run
    (it.epoch_size / (it.batch_size * it.num_gpus) + 1) it hall
  have hlt : it.epoch_size
      < (it.epoch_size / (it.batch_size * it.num_gpus) + 1) * (it.batch_size * it.num_gpus) := by
    have hdm := Nat.div_add_mod it.epoch_size (it.batch_size * it.num_gpus)
    have hm : it.epoch_size % (it.batch_size * it.num_gpus) < it.batch_size * it.num_gpus :=
      Nat.mod_lt it.epoch_size hs
    have hexp : (it.epoch_size / (it.batch_size * it.num_gpus) + 1) * (it.batch_size * it.num_gpus)
        = it.batch_size * it.num_gpus * (it.epoch_size / (it.batch_size * it.num_gpus))
          + it.batch_size * it.num_gpus := by
      ring
    rw [hexp]
    linarith
  have hnext : ({ it with cur_sample := it.cur_sample
      + (it.epoch_size / (it.batch_size * it.num_gpus) + 1) * (it.batch_size * it.num_gpus) }
        : SyntheticDataIter dt lt).next = none := by
    apply SyntheticDataIter.next_none
    show it.epoch_size < it.cur_sample
      + (it.epoch_size / (it.batch_size * it.num_gpus) + 1) * (it.batch_size * it.num_gpus)
    rw [h0, Nat.zero_add]
    exact hlt
  constructor
  · rw [hrun]
    rfl
  · rw [SyntheticDataIter.nextN_snoc, hrun]
    simp [hnext]

/-- Witness for C3 at the iterator with epoch size 5, batch 2, one GPU:
the first 5/2 + 1 = 3 calls return a batch and the 4th raises. -/
theorem synthetic_exhaustion_count_witness :
    itSynth.cur_sample = 0 ∧ 0 < itSynth.batch_size * itSynth.num_gpus ∧
    (itSynth.nextN 3).isSome = true ∧ itSynth.nextN 4 = none := by
  have h := synthetic_exhaustion_count itSynth rfl (by decide)
  exact ⟨rfl, by decide, h.1, h.2⟩

/-- Successful steps never touch the pre-generated tensors or the iterator
parameters; only the sample counter changes. -/
theorem SyntheticDataIter.nextN_fields {dt lt : Type} (n : Nat) :
    ∀ (it0 it1 : SyntheticDataIter dt lt), it0.nextN n = some it1 →
    it1.batch_size = it0.batch_size ∧ it1.num_gpus = it0.num_gpus ∧
    it1.epoch_size = it0.epoch_size ∧ it1.data = it0.data ∧ it1.label = it0.label := by
  induction n with
  | zero =>
    intro it0 it1 h
    have heq : it0 = it1 := by
      have h' : some it0 = some it1 := h
      cases h'
      rfl
    rw [← heq]
    exact ⟨rfl, rfl, rfl, rfl, rfl⟩
  | succ m ih =>
    intro it0 it1 h
    have hstep : SyntheticDataIter.nextN it0 (m + 1)
        = match it0.next with
          | some p => SyntheticDataIter.nextN p.2 m
          | none => none := rfl
    rw [hstep] at h
    cases hnx : it0.next with
    | none =>
      rw [hnx] at h
      cases h
    | some p =>
      rw [hnx] at h
      have hp := ih p.2 it1 h
      have hfields : p.2.batch_size = it0.batch_size ∧ p.2.num_gpus = it0.num_gpus ∧
          p.2.epoch_size = it0.epoch_size ∧ p.2.data = it0.data ∧ p.2.label = it0.label := by
        unfold SyntheticDataIter.next at hnx
        split at hnx
        · cases hnx
          exact ⟨rfl, rfl, rfl, rfl, rfl⟩
        · cases hnx
      exact ⟨hp.1.trans hfields.1, hp.2.1.trans hfields.2.1, hp.2.2.1.trans hfields.2.2.1,
        hp.2.2.2.1.trans hfields.2.2.2.1, hp.2.2.2.2.trans hfields.2.2.2.2⟩

/-- Claim C9: every successful `next` returns exactly the tensors stored at
construction, `reset` restores the initial state, and `reset` followed by
`next` reproduces the first batch (same values, same shapes). -/
theorem synthetic_repeat_and_reset {dt lt : Type} (it0 it1 : SyntheticDataIter dt lt) (n : Nat)
    (h : it0.nextN n = some it1) :
    it1.reset = { it0 with cur_sample := 0 } ∧
    (∀ b it2, it1.next = some (b, it2) → b = it0.data.zip it0.label) ∧
    (it0.cur_sample = 0 →
      it1.reset.next = some (it0.data.zip it0.label,
        { it0 with cur_sample := it0.batch_size * it0.num_gpus })) := by
  obtain ⟨hb, hg, he, hd, hl⟩ := SyntheticDataIter.nextN_fields n it0 it1 h
  have hreset : it1.reset = { it0 with cur_sample := 0 } := by
    unfold SyntheticDataIter.reset
    cases it0
    cases it1
    simp_all
  refine ⟨hreset, ?_, ?_⟩
  · intro b it2 hnx
    unfold SyntheticDataIter.next at hnx
    split at hnx
    · cases hnx
      rw [hd, hl]
    · cases hnx
  · intro hc0
    rw [hreset]
    have hn : ({ it0 with cur_sample := 0 } : SyntheticDataIter dt lt).next
        = some (it0.data.zip it0.label,
          { it0 with cur_sample := 0 + it0.batch_size * it0.num_gpus }) :=
      SyntheticDataIter.next_some { it0 with cur_sample := 0 } (Nat.zero_le _)
    rw [hn, Nat.zero_add]

/-- Witness for C9: two successful steps on a concrete iterator, then the
theorem's conclusions at that state. -/
theorem synthetic_repeat_and_reset_witness :
    itW.nextN 2 = some { itW with cur_sample := 4 } ∧
    ({ itW with cur_sample := 4 } : SyntheticDataIter Nat Nat).reset
      = { itW with cur_sample := 0 } ∧
    (∀ b it2, ({ itW with cur_sample := 4 } : SyntheticDataIter Nat Nat).next = some (b, it2)
      → b = itW.data.zip itW.label) :=
  ⟨by rfl, (synthetic_repeat_and_reset itW { itW with cur_sample := 4 } 2 (by rfl)).1,
   (synthetic_repeat_and_reset itW { itW with cur_sample := 4 } 2 (by rfl)).2.1⟩

/-- A string that a synonym test accepts is either equal to the default name
or a contiguous block of the declared synonym string. -/
theorem syn_cases (dn an : String) (h : are_synonyms dn an = true) :
    dn = an ∨ (dn = "--separ-val" ∧ hasBlock an.toList ("--dali-separ-val".toList) = true) := by
  by_cases heq : dn = an
  · exact Or.inl heq
  · right
    unfold are_synonyms at h
    rw [if_neg heq] at h
    by_cases h2 : ("--separ-val" : String) = dn
    · refine ⟨h2.symm, ?_⟩
      have hfind : List.find? (fun syn => syn.1 == dn) synonyms_list
          = some ("--separ-val", "--dali-separ-val") := by
        simp [synonyms_list, List.find?, h2]
      rw [hfind] at h
      exact h
    · exfalso
      have hbeq : (("--separ-val" : String) == dn) = false := beq_eq_false_iff_ne.mpr h2
      have hfind : List.find? (fun syn => syn.1 == dn) synonyms_list = none := by
        simp [synonyms_list, List.find?, hbeq]
      rw [hfind] at h
      exact Bool.noConfusion h

/-- Characters of a leading block come from the enclosing list. -/
theorem leadBlock_subset : ∀ (p s : List Char), leadBlock p s = true → ∀ c, c ∈ p → c ∈ s := by
  intro p
  induction p with
  | nil =>
    intro s _ c hc
    cases hc
  | cons a as ih =>
    intro s h c hc
    cases s with
    | nil => exact Bool.noConfusion h
    | cons b bs =>
      have h' : (a == b) = true ∧ leadBlock as bs = true := by
        simpa [leadBlock, Bool.and_eq_true] using h
      cases hc with
      | head =>
        have hab : a = b := eq_of_beq h'.1
        rw [hab]
        exact List.mem_cons_self b bs
      | tail _ hmem => exact List.mem_cons_of_mem b (ih bs h'.2 c hmem)

/-- Characters of a contiguous block come from the enclosing list. -/
theorem hasBlock_subset : ∀ (s p : List Char), hasBlock p s = true → ∀ c, c ∈ p → c ∈ s := by
  intro s
  induction s with
  | nil =>
    intro p h c hc
    exact leadBlock_subset p [] h c hc
  | cons b bs ih =>
    intro p h c hc
    have h' : leadBlock p (b :: bs) = true ∨ hasBlock p bs = true := by
      simpa [hasBlock, Bool.or_eq_true] using h
    cases h' with
    | inl h1 => exact leadBlock_subset p (b :: bs) h1 c hc
    | inr h2 => exact List.mem_cons_of_mem b (ih p h2 c hc)

/-- Every non-underscore character of a derived destination occurs in the
option string it came from. -/
theorem destOf_char_mem (s : String) (c : Char) (hc : c ∈ (destOf s).toList) (hne : c ≠ '_') :
    c ∈ s.toList := by
  have hc' : c ∈ (s.toList.dropWhile (fun ch => ch == '-')).map
      (fun ch => if ch == '-' then '_' else ch) := hc
  rcases List.mem_map.mp hc' with ⟨c0, hc0mem, hc0eq⟩
  by_cases hdash : (c0 == '-') = true
  · rw [if_pos hdash] at hc0eq
    exact absurd hc0eq.symm hne
  · rw [if_neg hdash] at hc0eq
    rw [← hc0eq]
    exact (List.dropWhile_sublist _).subset hc0mem

/-- Distinct default specifications have distinct option names. -/
theorem default_name_inj : ∀ d1, d1 ∈ default_args → ∀ d2, d2 ∈ default_args →
    d1.name = d2.name → d1 = d2 := by
  decide

/-- Distinct default specifications have distinct argparse destinations. -/
theorem default_dest_inj : ∀ d1, d1 ∈ default_args → ∀ d2, d2 ∈ default_args →
    destOf d1.name = destOf d2.name → d1 = d2 := by
  decide

/-- The only default named `--separ-val` is the first one. -/
theorem default_separ_unique : ∀ d, d ∈ default_args → d.name = "--separ-val" →
    d = separDefault := by
  decide

/-- No default option name occurs as a contiguous block of the synonym
string `--dali-separ-val`. -/
theorem default_no_block : ∀ d, d ∈ default_args →
    hasBlock d.name.toList ("--dali-separ-val".toList) = false := by
  decide

/-- Every default other than `--separ-val` has a destination character that
is not an underscore and does not occur in `--dali-separ-val`. -/
theorem default_dest_witness : ∀ d0, d0 ∈ default_args → d0 ≠ separDefault →
    ∃ c, c ∈ (destOf d0.name).toList ∧ c ≠ '_' ∧ c ∉ ("--dali-separ-val".toList) := by
  decide

/-- At most one default specification matches any given caller name. -/
theorem default_match_unique (nm : String) (d1 d2 : ArgSpec)
    (h1 : d1 ∈ default_args) (h2 : d2 ∈ default_args)
    (s1 : are_synonyms d1.name nm = true) (s2 : are_synonyms d2.name nm = true) : d1 = d2 := by
  rcases syn_cases _ _ s1 with e1 | ⟨e1, _⟩
  · rcases syn_cases _ _ s2 with e2 | ⟨e2, hb2⟩
    · exact default_name_inj d1 h1 d2 h2 (e1.trans e2.symm)
    · exfalso
      have hbad : hasBlock d1.name.toList ("--dali-separ-val".toList) = true := by
        rw [e1]
        exact hb2
      rw [default_no_block d1 h1] at hbad
      exact Bool.noConfusion hbad
  · rcases syn_cases _ _ s2 with e2 | ⟨e2, _⟩
    · exfalso
      have hbad : hasBlock d2.name.toList ("--dali-separ-val".toList) = true := by
        rw [e2]
        exact ‹hasBlock nm.toList ("--dali-separ-val".toList) = true›
      rw [default_no_block d2 h2] at hbad
      exact Bool.noConfusion hbad
    · rw [default_separ_unique d1 h1 e1, default_separ_unique d2 h2 e2]

/-- Any default whose destination collides with a caller name matched by
some default is that matched default itself. -/
theorem default_dest_match (an : String) (d d0 : ArgSpec)
    (hd : d ∈ default_args) (hd0 : d0 ∈ default_args)
    (hsyn : are_synonyms d.name an = true)
    (hdest : destOf d0.name = destOf an) : d0 = d := by
  rcases syn_cases _ _ hsyn with e1 | ⟨e1, hb⟩
  · apply default_dest_inj d0 hd0 d hd
    rw [hdest, ← e1]
  · have hdsep : d = separDefault := default_separ_unique d hd e1
    rw [hdsep]
    by_cases h0 : d0 = separDefault
    · exact h0
    · exfalso
      obtain ⟨c, hcmem, hcne, hcnot⟩ := default_dest_witness d0 hd0 h0
      rw [hdest] at hcmem
      have hcan : c ∈ an.toList := destOf_char_mem an c hcmem hcne
      exact hcnot (hasBlock_subset _ _ hb c hcan)

/-- Removing the first match yields a sublist. -/
theorem removeFirstMatch_sublist (nm : String) : ∀ ds : List ArgSpec,
    List.Sublist (removeFirstMatch nm ds) ds := by
  intro ds
  induction ds with
  | nil => exact List.Sublist.refl []
  | cons d ds ih =>
    unfold removeFirstMatch
    by_cases h : are_synonyms d.name nm = true
    · rw [if_pos h]
      exact List.sublist_cons_self d ds
    · rw [if_neg h]
      exact List.Sublist.cons₂ d ih

/-- The whole duplicate-removal fold yields a sublist of the defaults it
started from. -/
theorem merge_fold_sublist : ∀ (task : List ArgSpec) (ds : List ArgSpec),
    List.Sublist (task.foldl merge_step ds) ds := by
  intro task
  induction task with
  | nil =>
    intro ds
    exact List.Sublist.refl ds
  | cons a task ih =>
    intro ds
    exact (ih (merge_step ds a)).trans (removeFirstMatch_sublist a.name ds)

/-- If every element matching the caller name equals `d`, then `d` is gone
after one removal pass. -/
theorem not_mem_removeFirstMatch (nm : String) (d : ArgSpec) :
    ∀ ds : List ArgSpec, ds.Nodup →
    (∀ x, x ∈ ds → are_synonyms x.name nm = true → x = d) →
    are_synonyms d.name nm = true →
    d ∉ removeFirstMatch nm ds := by
  intro ds
  induction ds with
  | nil =>
    intro _ _ _
    exact List.not_mem_nil d
  | cons x ds ih =>
    intro hnd hmatch hd
    unfold removeFirstMatch
    by_cases hx : are_synonyms x.name nm = true
    · rw [if_pos hx]
      have hxd : x = d := hmatch x (List.mem_cons_self x ds) hx
      rw [hxd] at hnd
      exact (List.nodup_cons.mp hnd).1
    · rw [if_neg hx]
      have hne : d ≠ x := by
        intro hEq
        rw [hEq] at hd
        exact hx hd
      intro hmem
      rcases List.mem_cons.mp hmem with hEq | hmem2
      · exact hne hEq
      · exact ih (List.nodup_cons.mp hnd).2
          (fun y hy hsy => hmatch y (List.mem_cons_of_mem x hy) hsy) hd hmem2

/-- A default matched by some caller argument never survives the
duplicate-removal fold (the defaults list is duplicate-free and each caller
name matches at most one default). -/
theorem not_mem_merge_fold (d a : ArgSpec) :
    ∀ (task : List ArgSpec) (ds : List ArgSpec), ds.Nodup →
    (∀ x, x ∈ ds → x ∈ default_args) →
    a ∈ task → d ∈ default_args → are_synonyms d.name a.name = true →
    d ∉ task.foldl merge_step ds := by
  intro task
  induction task with
  | nil =>
    intro ds _ _ ha
    exact absurd ha (List.not_mem_nil a)
  | cons t task ih =>
    intro ds hnd hsub ha hd hsyn
    have hnd' : (merge_step ds t).Nodup :=
      (removeFirstMatch_sublist t.name ds).nodup hnd
    have hsub' : ∀ x, x ∈ merge_step ds t → x ∈ default_args := fun x hx =>
      hsub x ((removeFirstMatch_sublist t.name ds).subset hx)
    rcases List.mem_cons.mp ha with hat | hat
    · have hsyn' : are_synonyms d.name t.name = true := by
        rw [← hat]
        exact hsyn
      have hgone : d ∉ merge_step ds t := by
        unfold merge_step
        exact not_mem_removeFirstMatch t.name d ds hnd
          (fun x hx hsx => default_match_unique t.name x d (hsub x hx) hd hsx hsyn') hsyn'
      intro hmem
      exact hgone ((merge_fold_sublist task (merge_step ds t)).subset hmem)
    · exact ih (merge_step ds t) hnd' hsub' hat hd hsyn

/-- In a caller list with duplicate-free destinations, filtering by the
destination of a member returns exactly that member. -/
theorem filter_dest_singleton (a : ArgSpec) : ∀ (task : List ArgSpec),
    (task.map (fun t => destOf t.name)).Nodup → a ∈ task →
    task.filter (fun t => destOf t.name == destOf a.name) = [a] := by
  intro task
  induction task with
  | nil =>
    intro _ ha
    exact absurd ha (List.not_mem_nil a)
  | cons t task ih =>
    intro hnd ha
    rw [List.map_cons] at hnd
    have hnd2 : (task.map (fun t => destOf t.name)).Nodup := (List.nodup_cons.mp hnd).2
    have hhead : destOf t.name ∉ task.map (fun t => destOf t.name) := (List.nodup_cons.mp hnd).1
    rcases List.mem_cons.mp ha with hat | hat
    · subst hat
      rw [List.filter_cons_of_pos (p := fun x : ArgSpec => destOf x.name == destOf a.name) (by simp)]
      have hnil : task.filter (fun t => destOf t.name == destOf a.name) = [] := by
        rw [List.filter_eq_nil_iff]
        intro x hx hpx
        apply hhead
        have hx2 : destOf x.name = destOf a.name := by simpa using hpx
        rw [← hx2]
        exact List.mem_map_of_mem _ hx
      rw [hnil]
    · have hne : ¬((fun t => destOf t.name == destOf a.name) t = true) := by
        simp only [beq_iff_eq]
        intro hEq
        apply hhead
        rw [hEq]
        exact List.mem_map_of_mem _ hat
      rw [List.filter_cons_of_neg (p := fun x : ArgSpec => destOf x.name == destOf a.name) hne]
      exact ih hnd2 hat

/-- Claim C5 counterexample: the caller option `--separ_val` shares the
argparse destination `separ_val` with the default `--separ-val`, yet the
default survives the merge and the merged list holds two options with that
destination (removal compares option names, not destinations). -/
theorem merge_dest_sharing_survives :
    destOf "--separ_val" = destOf "--separ-val" ∧
    separDefault ∈ add_dali_pipeline_args taskUnderscore ∧
    ((add_dali_pipeline_args taskUnderscore).filter
      (fun t => destOf t.name == destOf "--separ_val")).length = 2 := by
  decide

/-- Claim C5 (amended): if a caller option's NAME equals a default option's
name or is accepted by the declared-synonym test, and the caller options
have pairwise distinct destinations, then the merged list contains exactly
one option with the caller's destination — the caller's own — and that
default does not survive among the merged defaults. -/
theorem merge_caller_name_wins (task : List ArgSpec) (a d : ArgSpec)
    (hdest : (task.map (fun t => destOf t.name)).Nodup)
    (ha : a ∈ task) (hd : d ∈ default_args)
    (hsyn : are_synonyms d.name a.name = true) :
    (add_dali_pipeline_args task).filter (fun t => destOf t.name == destOf a.name) = [a] ∧
    d ∉ merged_default_args task := by
  have hdnodup : default_args.Nodup := by decide
  have hnotmem : d ∉ merged_default_args task :=
    not_mem_merge_fold d a task default_args hdnodup (fun x hx => hx) ha hd hsyn
  refine ⟨?_, hnotmem⟩
  unfold add_dali_pipeline_args
  rw [List.filter_append]
  rw [filter_dest_singleton a task hdest ha]
  have hnil : (merged_default_args task).filter (fun t => destOf t.name == destOf a.name) = [] := by
    rw [List.filter_eq_nil_iff]
    intro x hx hpx
    have hxdef : x ∈ default_args := (merge_fold_sublist task default_args).subset hx
    have hxdest : destOf x.name = destOf a.name := by simpa using hpx
    have hxd : x = d := default_dest_match a.name d x hd hxdef hsyn hxdest
    rw [hxd] at hx
    exact hnotmem hx
  rw [hnil, List.append_nil]

/-- Witness for C5: the caller supplies the declared synonym
`--dali-separ-val`; the default `--separ-val` is removed and the caller's
option is the only one with its destination. -/
theorem merge_caller_name_wins_witness :
    (taskSynonym.map (fun t => destOf t.name)).Nodup ∧
    ({ name := "--dali-separ-val", help := "caller validation flag" } : ArgSpec) ∈ taskSynonym ∧
    separDefault ∈ default_args ∧
    are_synonyms separDefault.name "--dali-separ-val" = true ∧
    ((add_dali_pipeline_args taskSynonym).filter
        (fun t => destOf t.name == destOf "--dali-separ-val")
      = [{ name := "--dali-separ-val", help := "caller validation flag" }] ∧
     separDefault ∉ merged_default_args taskSynonym) := by
  refine ⟨by decide, by decide, by decide, by decide, ?_⟩
  exact merge_caller_name_wins taskSynonym
    { name := "--dali-separ-val", help := "caller validation flag" } separDefault
    (by decide) (by decide) (by decide) (by decide)
